import Mathlib

/-!
Verification of the `beetsplug/youtubetitle.py` title-cleaning core.

The Python source is shallowly embedded over `List Char`:

* Python `re` patterns used by the plugin are embedded as executable search
  functions returning the captured "junk" group of the first match
  (leftmost position, backtracking preferences of the lazy/greedy
  quantifiers mirrored explicitly).
* `str.replace(old, "")` is `removeAll` (all leftmost non-overlapping
  occurrences removed; empty `old` is the identity, as in Python).
* `str.strip()` is `pyStrip` (leading and trailing whitespace removed).
* `pathlib` accessors (`stem`, `parent.name`, `parent.parent.name`) are
  embedded over `/`-separated path strings.
-/

namespace YoutubeTitle

/-- Whitespace characters recognised by Python `str.strip` / regex `\s`
(ASCII fragment). -/
def isWs (c : Char) : Bool :=
  c = ' ' || c = '\t' || c = '\n' || c = '\r' || c = '\x0b' || c = '\x0c'

/-- Separator characters of the `EXTRA_STRIP_PATTERNS` character class `[-_\|]`. -/
def isSep (c : Char) : Bool :=
  c = '-' || c = '_' || c = '|'

/-- Opening brackets of the static junk patterns, character class `[\(\[\{]`. -/
def isOpen (c : Char) : Bool :=
  c = '(' || c = '[' || c = '\x7b'

/-- Closing brackets of the static junk patterns, character class `[\)\]\}]`. -/
def isClose (c : Char) : Bool :=
  c = ')' || c = ']' || c = '\x7d'

/-- Case-insensitive character comparison, for the `(?i)` flag. -/
def lowerEq (a b : Char) : Bool :=
  a.toLower = b.toLower

/-- A single-character matcher inside a keyword: a literal character
(case-insensitive) or the `\s` class. -/
inductive CM where
  | lit (c : Char)
  | ws
deriving DecidableEq

/-- Whether one character matcher accepts a character. -/
def cmMatch : CM → Char → Bool
  | .lit a, c => lowerEq a c
  | .ws, c => isWs c

/-- Match a fixed sequence of character matchers against a prefix of the
input; return the consumed source characters and the remainder. -/
def matchSeq : List CM → List Char → Option (List Char × List Char)
  | [], cs => some ([], cs)
  | _ :: _, [] => none
  | m :: ms, c :: cs =>
    if cmMatch m c then (matchSeq ms cs).map (fun p => (c :: p.1, p.2)) else none

/-- Lazy scan `.*?[\)\]\}]`: consume non-newline characters up to and
including the first closing bracket; fail on newline or end of input. -/
def scanClose : List Char → Option (List Char)
  | [] => none
  | c :: cs =>
    if isClose c then some [c]
    else if c = '\n' then none
    else (scanClose cs).map (fun t => c :: t)

/-- Try the keyword alternatives in order at the current position; on a
keyword match, lazily scan for a closing bracket; on failure fall through
to the next alternative (regex backtracking order). -/
def tryAlts (alts : List (List CM)) (cs : List Char) : Option (List Char)  :=
  match alts with
  | [] => none
  | a :: rest =>
    match matchSeq a cs with
    | some (kw, r) =>
      match scanClose r with
      | some tail => some (kw ++ tail)
      | none => tryAlts rest cs
    | none => tryAlts rest cs

/-- Lazy gap `.*?` before the keyword: try the alternatives at each
position, extending the gap one non-newline character at a time. -/
def innerScan (alts : List (List CM)) : List Char → Option (List Char)
  | [] => none
  | c :: cs =>
    match tryAlts alts (c :: cs) with
    | some m => some m
    | none => if c = '\n' then none else (innerScan alts cs).map (fun t => c :: t)

/-- Search for `(?i)(?P<junk>[\(\[\{].*?KEYWORD.*?[\)\]\}])`: leftmost
start position whose character is an opening bracket and whose suffix
admits the inner match; returns the captured junk text. -/
def bracketSearch (alts : List (List CM)) : List Char → Option (List Char)
  | [] => none
  | c :: cs =>
    if isOpen c then
      match innerScan alts cs with
      | some m => some (c :: m)
      | none => bracketSearch alts cs
    else bracketSearch alts cs

/-- Literal keyword text as a matcher sequence. -/
def lits (s : String) : List CM := s.data.map CM.lit

/-- A compiled junk pattern is represented by its search function:
the captured `junk` group of the first match, if any. -/
abbrev JunkPattern := List Char → Option (List Char)

/-- Keyword alternatives of `(?:Explicit|Clean|Parental\sAdvisory)`. -/
def kwExplicit : List (List CM) :=
  [lits "Explicit", lits "Clean", lits "Parental" ++ [CM.ws] ++ lits "Advisory"]

/-- Keyword alternatives of `(?:HQ|HD|CDQ)`. -/
def kwQuality : List (List CM) := [lits "HQ", lits "HD", lits "CDQ"]

/-- Keyword alternatives of `Prod(?:uced|\.)?\sBy`, expanded in regex
backtracking order (group present with first alternative, then second,
then absent). -/
def kwProdBy : List (List CM) :=
  [lits "Produced" ++ [CM.ws] ++ lits "By",
   lits "Prod." ++ [CM.ws] ++ lits "By",
   lits "Prod" ++ [CM.ws] ++ lits "By"]

/-- The 13 static patterns of `YOUTUBE_TITLE_JUNK`, in source order. -/
def YOUTUBE_TITLE_JUNK : List JunkPattern :=
  [bracketSearch kwExplicit,
   bracketSearch kwQuality,
   bracketSearch [lits "Audio"],
   bracketSearch [lits "Album"],
   bracketSearch [lits "Song"],
   bracketSearch [lits "Video"],
   bracketSearch [lits "Lyric"],
   bracketSearch [lits "Visualizer"],
   bracketSearch [lits "iTunes"],
   bracketSearch [lits "Official"],
   bracketSearch [lits "Original"],
   bracketSearch [lits "Version"],
   bracketSearch kwProdBy]

/-- Scanner of `removeAll`: in skip mode (`n > 0`) discard the next `n`
characters (the rest of a matched occurrence); otherwise emit the head
unless a new occurrence starts here. -/
def removeAllAux (pat : List Char) : Nat → List Char → List Char
  | _, [] => []
  | 0, c :: cs =>
    if !pat.isEmpty && pat.isPrefixOf (c :: cs) then removeAllAux pat (pat.length - 1) cs
    else c :: removeAllAux pat 0 cs
  | n + 1, _ :: cs => removeAllAux pat n cs

/-- Python `s.replace(pat, "")`: remove all leftmost non-overlapping
occurrences; an empty pattern leaves the string unchanged. -/
def removeAll (pat : List Char) (s : List Char) : List Char :=
  removeAllAux pat 0 s

/-- Whether `pat` occurs as a contiguous subsequence of `s`. -/
def occursIn (pat : List Char) : List Char → Bool
  | [] => pat.isEmpty
  | c :: cs => pat.isPrefixOf (c :: cs) || occursIn pat cs

/-- Python `str.strip()`. -/
def pyStrip (s : List Char) : List Char :=
  ((s.dropWhile isWs).reverse.dropWhile isWs).reverse

/-- The tail `.+$` of the first extra-strip pattern: a nonempty run of
non-newline characters reaching the end of string, or the end minus a
final newline (Python `$` semantics); greedy, so the whole input is
preferred. -/
def dotPlusDollar (cs : List Char) : Option (List Char) :=
  if cs ≠ [] ∧ cs.contains '\n' = false then some cs
  else if cs.getLast? = some '\n' ∧ cs.dropLast ≠ [] ∧ (cs.dropLast).contains '\n' = false then
    some cs.dropLast
  else none

/-- The tail `\s*(?P<title>.+)$` of the first extra-strip pattern: the
greedy whitespace run prefers maximal consumption, backtracking into
`.+` on failure. -/
def wsTitleAux : List Char → Option (List Char)
  | [] => dotPlusDollar []
  | c :: rest =>
    if isWs c then
      match wsTitleAux rest with
      | some t => some t
      | none => dotPlusDollar (c :: rest)
    else dotPlusDollar (c :: rest)

/-- After the leading whitespace run: `[-_\|]\s*(?P<title>.+)$` — the
head must be a separator, then the tail matcher runs. -/
def sepHead : List Char → Option (List Char)
  | [] => none
  | c :: rest => if isSep c then wsTitleAux rest else none

/-- `re.match` of `^\s*[-_\|]\s*(?P<title>.+)$`: returns the `title`
capture when the pattern matches. The separator class contains no
whitespace character, so the leading `\s*` deterministically consumes
the maximal whitespace run. -/
def extraStrip1 (cs : List Char) : Option (List Char) :=
  sepHead (cs.dropWhile isWs)

/-- The tail `\s*[-_\|]\s*$` of the second extra-strip pattern: a
whitespace run, a separator, then whitespace to the end (`\s*$` accepts
exactly an all-whitespace remainder, a final newline being whitespace). -/
def sepTail : List Char → Bool
  | [] => false
  | c :: rest => if isWs c then sepTail rest else isSep c && rest.all isWs

/-- Greedy `.+` of the second extra-strip pattern: the longest nonempty
non-newline prefix whose remainder matches `\s*[-_\|]\s*$`. -/
def titleScan : List Char → Option (List Char)
  | [] => none
  | c :: rest =>
    if c = '\n' then none
    else
      match titleScan rest with
      | some t => some (c :: t)
      | none => if sepTail rest then some [c] else none

/-- `re.match` of `^(?P<title>.+)\s*[-_\|]\s*$`: returns the `title`
capture when the pattern matches. -/
def extraStrip2 (cs : List Char) : Option (List Char) :=
  titleScan cs

/-- The two `EXTRA_STRIP_PATTERNS`, in source order, each represented by
its anchored-match `title`-capture function. -/
def EXTRA_STRIP_PATTERNS : List (List Char → Option (List Char)) :=
  [extraStrip1, extraStrip2]

/-- One loop iteration of `_replace_junk`: search, and on a match remove
every occurrence of the captured junk (Python `str.replace`). -/
def applyJunk (title : List Char) (p : JunkPattern) : List Char :=
  match p title with
  | some junk => removeAll junk title
  | none => title

/-- One extra-strip iteration: replace the title by the `title` capture
when the pattern matches. -/
def applyExtra (title : List Char) (p : List Char → Option (List Char)) : List Char :=
  match p title with
  | some t => t
  | none => title

/-- `FromYoutubeTitlePlugin._replace_junk`: apply every junk pattern in
order, strip whitespace, then apply the two extra-strip patterns. -/
def replace_junk (title : List Char) (patterns : List JunkPattern) : List Char :=
  EXTRA_STRIP_PATTERNS.foldl applyExtra (pyStrip (patterns.foldl applyJunk title))

/-- Modelled from the spec: the deletion semantics the spec describes
for `_replace_junk` — delete only the FIRST textual occurrence of the
captured substring, leaving later occurrences in place (reference
semantics for comparison with the source's `removeAll`). -/
def removeFirst (pat : List Char) : List Char → List Char
  | [] => []
  | c :: cs =>
    if !pat.isEmpty && pat.isPrefixOf (c :: cs) then List.drop (pat.length - 1) cs
    else c :: removeFirst pat cs

/-- Modelled from the spec: one loop iteration of `_replace_junk` under
the spec's first-occurrence deletion semantics (compare `applyJunk`). -/
def applyJunkFirst (title : List Char) (p : JunkPattern) : List Char :=
  match p title with
  | some junk => removeFirst junk title
  | none => title

/-- Modelled from the spec: `_replace_junk` with the spec's
first-occurrence deletion in the loop, everything else as in the source
(compare `replace_junk`). -/
def replace_junk_first (title : List Char) (patterns : List JunkPattern) : List Char :=
  EXTRA_STRIP_PATTERNS.foldl applyExtra (pyStrip (patterns.foldl applyJunkFirst title))

/-! Path inference (`pathlib` over `/`-separated path strings). -/

/-- Split a path string at `/` (like `str.split("/")`). -/
def splitOnSlash : List Char → List (List Char)
  | [] => [[]]
  | c :: cs =>
    if c = '/' then [] :: splitOnSlash cs
    else
      match splitOnSlash cs with
      | [] => [[c]]
      | p :: ps => (c :: p) :: ps

/-- Nonempty path components, as `pathlib` normalises repeated or
trailing slashes away and treats a leading `/` as the root. -/
def pathParts (p : List Char) : List (List Char) :=
  (splitOnSlash p).filter (fun x => !x.isEmpty)

/-- `pathlib` `PurePath.stem`: the final component without its suffix;
the suffix starts at the last dot when that dot is neither the first nor
the last character of the component. -/
def stemOf (component : List Char) : List Char :=
  match component.reverse.findIdx? (fun c => c = '.') with
  | none => component
  | some j =>
    let i := component.length - 1 - j
    if 0 < i ∧ i < component.length - 1 then component.take i else component

/-- `track_title_from_path(p)`: `p.stem`. -/
def track_title_from_path (p : List Char) : List Char :=
  stemOf ((pathParts p).getLastD [])

/-- `album_name_from_path(p)`: `p.parent.name`. -/
def album_name_from_path (p : List Char) : List Char :=
  (pathParts p).reverse.getD 1 []

/-- `artist_name_from_path(p)`: `p.parent.parent.name`. -/
def artist_name_from_path (p : List Char) : List Char :=
  (pathParts p).reverse.getD 2 []

/-! Dynamic pattern construction. -/

/-- Match a literal pattern (case-insensitively) at the current
position; return the captured source text. -/
def searchAt (pat : List CM) (cs : List Char) : Option (List Char) :=
  (matchSeq pat cs).map Prod.fst

/-- Search a literal pattern at every position, leftmost match first. -/
def litSearch (pat : List CM) : List Char → Option (List Char)
  | [] => searchAt pat []
  | c :: cs =>
    match searchAt pat (c :: cs) with
    | some m => some m
    | none => litSearch pat cs

/-- `remove_album_name_pattern(album_name)`: the search function of
`(?i)(?P<junk>\(NAME\))` with the album name escaped to a literal. -/
def remove_album_name_pattern (album_name : List Char) : JunkPattern :=
  litSearch (('(' :: (album_name ++ [')'])).map CM.lit)

/-- The optional closing parenthesis `\)?`: greedy, consumes a single
`)` when present. -/
def closeParenOpt (cs : List Char) : List Char :=
  match cs with
  | c :: _ => if c = ')' then [')'] else []
  | [] => []

/-- Match `NAME\)?` at the current position (the `\(?` consumed
nothing). -/
def artistBare (artist_name : List Char) (cs : List Char) : Option (List Char) :=
  match matchSeq (artist_name.map CM.lit) cs with
  | some (m, r) => some (m ++ closeParenOpt r)
  | none => none

/-- Match `\(?NAME\)?` at the current position: the greedy `\(?` first
takes a `(` when present, backtracking to the bare name (from the same
position, the parenthesis included) when the name fails after it; then
`\)?` takes a `)` when present. -/
def artistMatchAt (artist_name : List Char) (cs : List Char) : Option (List Char) :=
  match cs with
  | c :: rest =>
    if c = '(' then
      match matchSeq (artist_name.map CM.lit) rest with
      | some (m, r) => some ('(' :: (m ++ closeParenOpt r))
      | none => artistBare artist_name cs
    else artistBare artist_name cs
  | [] => artistBare artist_name cs

/-- Scan every start position for an `\(?NAME\)?` match, leftmost
first; a zero-width match is a match, as in Python `re.search`. -/
def artistSearch (artist_name : List Char) : List Char → Option (List Char)
  | [] => artistMatchAt artist_name []
  | c :: cs =>
    match artistMatchAt artist_name (c :: cs) with
    | some m => some m
    | none => artistSearch artist_name cs

/-- `remove_artist_name_pattern(artist_name)`: the search function of
`(?i)(?P<junk>\(?NAME\)?)` with the artist name escaped to a literal. -/
def remove_artist_name_pattern (artist_name : List Char) : JunkPattern :=
  artistSearch artist_name

/-! Plugin orchestration. -/

/-- The two plugin configuration options (defaults are both `true`). -/
structure Config where
  infer_album : Bool
  infer_artist : Bool

/-- A music item: the path plus the three mutable metadata fields; all
remaining item fields are abstracted into `rest_fields`. An empty string
is the falsy "unset" value. -/
structure Item (α : Type) where
  path : List Char
  title : List Char
  album : List Char
  artist : List Char
  rest_fields : α

/-- `get_album(item)`: the album name inferred from the item's path,
uncleaned. -/
def get_album (path : List Char) : List Char :=
  album_name_from_path path

/-- `get_artist(item)`: the artist name inferred from the item's path,
uncleaned. -/
def get_artist (path : List Char) : List Char :=
  artist_name_from_path path

/-- `get_clean_title(item)`: raw title from the path, the item-specific
album/artist patterns (as enabled), then the static catalog, all fed to
`_replace_junk`. -/
def get_clean_title (cfg : Config) (path : List Char) : List Char :=
  let raw_title := track_title_from_path path
  let specific :=
    (if cfg.infer_album then [remove_album_name_pattern (album_name_from_path path)] else []) ++
    (if cfg.infer_artist then [remove_artist_name_pattern (artist_name_from_path path)] else [])
  replace_junk raw_title (specific ++ YOUTUBE_TITLE_JUNK)

/-- The per-item body of `clean_youtube_metadata`: conditionally set
title, album and artist, each only when currently empty. -/
def clean_item {α : Type} (cfg : Config) (item : Item α) : Item α :=
  let item := if item.title.isEmpty then { item with title := get_clean_title cfg item.path } else item
  let item := if cfg.infer_album && item.album.isEmpty then { item with album := get_album item.path } else item
  if cfg.infer_artist && item.artist.isEmpty then { item with artist := get_artist item.path } else item

/-- `clean_youtube_metadata`: process every item of the task's uniform
item list. -/
def clean_youtube_metadata {α : Type} (cfg : Config) (items : List (Item α)) : List (Item α) :=
  items.map (clean_item cfg)

/-! Helper predicates and lemmas. -/

/-- The first character, when present, does not satisfy `p`. -/
def noHead (p : Char → Bool) (l : List Char) : Bool :=
  match l.head? with
  | some c => !p c
  | none => true

/-- The last character, when present, does not satisfy `p`. -/
def noLast (p : Char → Bool) (l : List Char) : Bool :=
  noHead p l.reverse

theorem noHead_nil (p : Char → Bool) : noHead p [] = true := rfl

theorem noHead_cons (p : Char → Bool) (c : Char) (l : List Char) :
    noHead p (c :: l) = !p c := rfl

theorem noHead_append_left (p : Char → Bool) (a b : List Char) (h : a ≠ []) :
    noHead p (a ++ b) = noHead p a := by
  cases a with
  | nil => exact absurd rfl h
  | cons c cs => rfl

theorem noLast_cons (p : Char → Bool) (c : Char) (l : List Char) (h : l ≠ []) :
    noLast p (c :: l) = noLast p l := by
  unfold noLast
  rw [List.reverse_cons, noHead_append_left]
  simpa using h

theorem dropWhile_eq_self_of_noHead (p : Char → Bool) (l : List Char)
    (h : noHead p l = true) : l.dropWhile p = l := by
  cases l with
  | nil => rfl
  | cons c cs =>
    rw [noHead_cons, Bool.not_eq_true'] at h
    simp [List.dropWhile, h]

theorem noHead_dropWhile (p : Char → Bool) (l : List Char) :
    noHead p (l.dropWhile p) = true := by
  induction l with
  | nil => rfl
  | cons c cs ih =>
    by_cases h : p c = true
    · simpa [List.dropWhile, h] using ih
    · rw [Bool.not_eq_true] at h
      simp [List.dropWhile, h, noHead_cons]

theorem pyStrip_eq_rdropWhile (s : List Char) :
    pyStrip s = (s.dropWhile isWs).rdropWhile isWs := rfl

theorem noHead_isWs_pyStrip (s : List Char) : noHead isWs (pyStrip s) = true := by
  rw [pyStrip_eq_rdropWhile]
  rcases List.rdropWhile_prefix isWs ((s.dropWhile isWs)) with ⟨t, ht⟩
  by_cases h : (s.dropWhile isWs).rdropWhile isWs = []
  · rw [h]; rfl
  · rw [← noHead_append_left isWs _ t h, ht]
    exact noHead_dropWhile isWs s

theorem noLast_isWs_pyStrip (s : List Char) : noLast isWs (pyStrip s) = true := by
  rw [pyStrip_eq_rdropWhile]
  unfold noLast List.rdropWhile
  rw [List.reverse_reverse]
  exact noHead_dropWhile isWs _

theorem pyStrip_idem (s : List Char) : pyStrip (pyStrip s) = pyStrip s := by
  have h1 : (pyStrip s).dropWhile isWs = pyStrip s :=
    dropWhile_eq_self_of_noHead isWs _ (noHead_isWs_pyStrip s)
  have h2 : (pyStrip s).reverse.dropWhile isWs = (pyStrip s).reverse :=
    dropWhile_eq_self_of_noHead isWs _ (noLast_isWs_pyStrip s)
  show ((((pyStrip s).dropWhile isWs).reverse).dropWhile isWs).reverse = pyStrip s
  rw [h1, h2, List.reverse_reverse]

/-! Character class facts. -/

theorem isWs_eq_false_of_isSep (c : Char) (h : isSep c = true) : isWs c = false := by
  unfold isSep at h
  simp only [Bool.or_eq_true, decide_eq_true_eq] at h
  rcases h with (rfl | rfl) | rfl <;> rfl

theorem isOpen_eq_false_of_isSep (c : Char) (h : isSep c = true) : isOpen c = false := by
  unfold isSep at h
  simp only [Bool.or_eq_true, decide_eq_true_eq] at h
  rcases h with (rfl | rfl) | rfl <;> rfl

theorem isOpen_eq_false_of_isWs (c : Char) (h : isWs c = true) : isOpen c = false := by
  unfold isWs at h
  simp only [Bool.or_eq_true, decide_eq_true_eq] at h
  rcases h with ((((rfl | rfl) | rfl) | rfl) | rfl) | rfl <;> rfl

theorem ne_newline_of_isSep (c : Char) (h : isSep c = true) : c ≠ '\n' := by
  unfold isSep at h
  simp only [Bool.or_eq_true, decide_eq_true_eq] at h
  rcases h with (rfl | rfl) | rfl <;> decide

/-! Concrete claim evaluations. -/

/-- C1, counterexample: a SINGLE-pattern sequence — just the static
Video pattern (catalog index 5) — on the title
`"A (Official Video) B (Official Video)"`. The pattern matches once and
captures `"(Official Video)"`. The claim's semantics delete only the
first textual occurrence and leave the later one in place
(`applyJunkFirst` / `replace_junk_first`, modelled from the spec's
words, keep `"(Official Video)"` at the end); the code's one loop
iteration (`applyJunk`, Python `str.replace` with no count) deletes
BOTH occurrences, and `_replace_junk` with this one-pattern sequence
returns `"A  B"` with no surviving occurrence. The two semantics
disagree on this input, refuting the claim as stated. -/
theorem claim_C1_counterexample :
    YOUTUBE_TITLE_JUNK.get? 5 = some (bracketSearch [lits "Video"]) ∧
    bracketSearch [lits "Video"] "A (Official Video) B (Official Video)".data =
      some "(Official Video)".data ∧
    applyJunk "A (Official Video) B (Official Video)".data
      (bracketSearch [lits "Video"]) = "A  B ".data ∧
    applyJunkFirst "A (Official Video) B (Official Video)".data
      (bracketSearch [lits "Video"]) = "A  B (Official Video)".data ∧
    occursIn "(Official Video)".data
      (applyJunk "A (Official Video) B (Official Video)".data
        (bracketSearch [lits "Video"])) = false ∧
    occursIn "(Official Video)".data
      (applyJunkFirst "A (Official Video) B (Official Video)".data
        (bracketSearch [lits "Video"])) = true ∧
    replace_junk "A (Official Video) B (Official Video)".data
      [bracketSearch [lits "Video"]] = "A  B".data ∧
    replace_junk_first "A (Official Video) B (Official Video)".data
      [bracketSearch [lits "Video"]] = "A  B (Official Video)".data ∧
    replace_junk "A (Official Video) B (Official Video)".data
      [bracketSearch [lits "Video"]] ≠
      replace_junk_first "A (Official Video) B (Official Video)".data
        [bracketSearch [lits "Video"]] := by
  exact ⟨rfl, by decide, by decide, by decide, by decide, by decide, by decide, by decide,
    by decide⟩

/-- C2, counterexample: the title `" - "` cleans to `"-"`, not to the
empty string: after stripping, the leading-separator pattern needs at
least one character after the separator and the trailing-separator
pattern needs at least one character before it, so neither matches the
single-character string `"-"`. -/
theorem claim_C2_counterexample :
    replace_junk " - ".data YOUTUBE_TITLE_JUNK = "-".data ∧ "-".data ≠ "".data := by
  exact ⟨by decide, by decide⟩

/-- C5: for the path `Artist/Album/01 Track (Official Audio).mp3` the
three path-inference functions return the expected components and the
full pipeline (album and artist inference on) returns `"01 Track"`. -/
theorem claim_C5 :
    track_title_from_path "Artist/Album/01 Track (Official Audio).mp3".data =
      "01 Track (Official Audio)".data ∧
    album_name_from_path "Artist/Album/01 Track (Official Audio).mp3".data = "Album".data ∧
    artist_name_from_path "Artist/Album/01 Track (Official Audio).mp3".data = "Artist".data ∧
    get_clean_title ⟨true, true⟩ "Artist/Album/01 Track (Official Audio).mp3".data =
      "01 Track".data := by
  exact ⟨by decide, by decide, by decide, by decide⟩

/-- C6: for the raw title `"Artist - Song Title (Official Video)"` with
artist name `"Artist"`, the artist pattern captures the leading
`"Artist"`, its removal leaves `" - Song Title (Official Video)"`, the
static Video pattern captures `"(Official Video)"`, and the full
`_replace_junk` run (artist pattern then static catalog) yields
`"Song Title"` after the leading-separator cleanup. -/
theorem claim_C6 :
    remove_artist_name_pattern "Artist".data "Artist - Song Title (Official Video)".data =
      some "Artist".data ∧
    applyJunk "Artist - Song Title (Official Video)".data
      (remove_artist_name_pattern "Artist".data) = " - Song Title (Official Video)".data ∧
    bracketSearch [lits "Video"] " - Song Title (Official Video)".data =
      some "(Official Video)".data ∧
    replace_junk "Artist - Song Title (Official Video)".data
      (remove_artist_name_pattern "Artist".data :: YOUTUBE_TITLE_JUNK) = "Song Title".data := by
  exact ⟨by decide, by decide, by decide, by decide⟩

/-- C7, counterexample: with zero patterns, `_replace_junk "Song -"`
returns `"Song "` (the trailing-separator cleanup still runs and its
greedy title capture keeps the whitespace before the separator), which
differs from the trimmed original `"Song -"`. -/
theorem claim_C7_counterexample :
    replace_junk "Song -".data [] = "Song ".data ∧
    pyStrip "Song -".data = "Song -".data ∧
    "Song ".data ≠ "Song -".data := by
  exact ⟨by decide, by decide, by decide⟩

/-- C10, counterexample: with an empty artist name the pattern
`\(?\)?` matches at position 0 of `"(Hello)"` with the NONEMPTY capture
`"("` (the greedy optional parenthesis consumes the leading `(`), and
applying it in `_replace_junk`'s loop removes every `(`, changing the
title — the capture is not empty and the title is not left unchanged. -/
theorem claim_C10_counterexample :
    remove_artist_name_pattern [] "(Hello)".data = some "(".data ∧
    applyJunk "(Hello)".data (remove_artist_name_pattern []) = "Hello)".data ∧
    "Hello)".data ≠ "(Hello)".data := by
  exact ⟨by decide, by decide, by decide⟩

/-! Lemmas about `removeAll` (Python `str.replace(old, "")`). -/

theorem isPrefixOf_append_self (l b : List Char) : l.isPrefixOf (l ++ b) = true := by
  induction l with
  | nil => cases b <;> rfl
  | cons c cs ih => simp [List.isPrefixOf, ih]

theorem removeAllAux_skip (pat : List Char) :
    ∀ (xs b : List Char), removeAllAux pat xs.length (xs ++ b) = removeAllAux pat 0 b
  | [], _ => rfl
  | x :: xs, b => by
    show removeAllAux pat (xs.length + 1) (x :: (xs ++ b)) = removeAllAux pat 0 b
    rw [show removeAllAux pat (xs.length + 1) (x :: (xs ++ b)) =
          removeAllAux pat xs.length (xs ++ b) from rfl]
    exact removeAllAux_skip pat xs b

theorem removeAllAux_head_occ (pat b : List Char) (h : pat ≠ []) :
    removeAllAux pat 0 (pat ++ b) = removeAllAux pat 0 b := by
  cases pat with
  | nil => exact absurd rfl h
  | cons p pr =>
    have hpre : (p :: pr).isPrefixOf ((p :: pr) ++ b) = true := isPrefixOf_append_self _ b
    have hcond : (!(p :: pr).isEmpty && (p :: pr).isPrefixOf (p :: (pr ++ b))) = true := by
      simp only [List.isEmpty_cons, Bool.not_false, Bool.true_and]
      exact hpre
    show removeAllAux (p :: pr) 0 (p :: (pr ++ b)) = removeAllAux (p :: pr) 0 b
    rw [removeAllAux, if_pos hcond]
    have hlen : (p :: pr).length - 1 = pr.length := by simp
    rw [hlen]
    exact removeAllAux_skip (p :: pr) pr b

theorem removeAllAux_no_occ (pat : List Char) :
    ∀ (a b : List Char),
      (∀ i, i < a.length → pat.isPrefixOf ((a ++ b).drop i) = false) →
      removeAllAux pat 0 (a ++ b) = a ++ removeAllAux pat 0 b
  | [], _, _ => rfl
  | c :: a', b, h => by
    have h0 : pat.isPrefixOf (c :: (a' ++ b)) = false := by
      simpa using h 0 (by simp)
    have hcond : (!pat.isEmpty && pat.isPrefixOf (c :: (a' ++ b))) = false := by
      simp [h0]
    show removeAllAux pat 0 (c :: (a' ++ b)) = c :: (a' ++ removeAllAux pat 0 b)
    rw [removeAllAux, if_neg (by simp [hcond])]
    have ih := removeAllAux_no_occ pat a' b (fun i hi => by
      simpa using h (i + 1) (by simpa using hi))
    rw [ih]

/-- C1, amended: when a pattern matches, `_replace_junk` deletes EVERY
leftmost non-overlapping textual occurrence of the captured junk
substring (Python `str.replace` semantics), not only the first one: a
title decomposed around two such occurrences loses both. -/
theorem claim_C1 (x y z junk : List Char) (p : JunkPattern)
    (hp : p (x ++ (junk ++ (y ++ (junk ++ z)))) = some junk)
    (hne : junk ≠ [])
    (hx : ∀ i, i < x.length →
      junk.isPrefixOf ((x ++ (junk ++ (y ++ (junk ++ z)))).drop i) = false)
    (hy : ∀ i, i < y.length → junk.isPrefixOf ((y ++ (junk ++ z)).drop i) = false)
    (hz : removeAll junk z = z) :
    applyJunk (x ++ (junk ++ (y ++ (junk ++ z)))) p = x ++ (y ++ z) := by
  have happ : applyJunk (x ++ (junk ++ (y ++ (junk ++ z)))) p
      = removeAll junk (x ++ (junk ++ (y ++ (junk ++ z)))) := by
    unfold applyJunk
    rw [hp]
  rw [happ]
  unfold removeAll at hz ⊢
  rw [removeAllAux_no_occ junk x _ hx, removeAllAux_head_occ junk _ hne,
    removeAllAux_no_occ junk y _ hy, removeAllAux_head_occ junk _ hne, hz]

/-- C1 witness: both occurrences of `"(Official Video)"` disappear. -/
theorem claim_C1_witness :
    applyJunk ("A ".data ++ ("(Official Video)".data ++ (" B ".data ++ ("(Official Video)".data ++ []))))
      (bracketSearch [lits "Official"]) = "A ".data ++ (" B ".data ++ []) :=
  claim_C1 "A ".data " B ".data [] "(Official Video)".data (bracketSearch [lits "Official"])
    (by decide) (by decide) (by decide) (by decide) (by decide)

/-! Lemmas about the junk-pattern fold and the extra-strip stage. -/

theorem foldl_applyJunk_no_match (title : List Char) :
    ∀ (patterns : List JunkPattern), (∀ p ∈ patterns, p title = none) →
      patterns.foldl applyJunk title = title
  | [], _ => rfl
  | p :: ps, h => by
    have hstep : applyJunk title p = title := by
      unfold applyJunk
      rw [h p (List.mem_cons_self p ps)]
    rw [List.foldl_cons, hstep]
    exact foldl_applyJunk_no_match title ps (fun q hq => h q (List.mem_cons_of_mem p hq))

theorem noLast_eq_getLast? (p : Char → Bool) (l : List Char) (c : Char)
    (h : l.getLast? = some c) : noLast p l = !p c := by
  unfold noLast noHead
  rw [List.head?_reverse, h]

theorem dotPlusDollar_some (cs t : List Char) (h : dotPlusDollar cs = some t) :
    (t = cs ∧ cs ≠ [] ∧ cs.contains '\n' = false) ∨
      (cs.getLast? = some '\n' ∧ t = cs.dropLast) := by
  unfold dotPlusDollar at h
  split_ifs at h with h1 h2
  · exact Or.inl ⟨(Option.some.inj h).symm, h1⟩
  · exact Or.inr ⟨h2.1, (Option.some.inj h).symm⟩

theorem wsTitleAux_of_clean :
    ∀ (cs : List Char), cs ≠ [] → cs.contains '\n' = false → noLast isWs cs = true →
      wsTitleAux cs = some (cs.dropWhile isWs)
  | [], h, _, _ => absurd rfl h
  | c :: rest, _, hnl, hlast => by
    by_cases hw : isWs c = true
    · have hrest : rest ≠ [] := by
        intro h0; subst h0
        rw [noLast_eq_getLast? isWs [c] c (by simp)] at hlast
        rw [hw] at hlast; cases hlast
      have hnl' : rest.contains '\n' = false := by
        rw [List.contains_cons] at hnl
        exact (Bool.or_eq_false_iff.1 hnl).2
      have hlast' : noLast isWs rest = true := by
        rw [← noLast_cons isWs c rest hrest]; exact hlast
      have ih := wsTitleAux_of_clean rest hrest hnl' hlast'
      rw [wsTitleAux, if_pos hw, ih, List.dropWhile_cons_of_pos hw]
    · have hw' : ¬ isWs c = true := hw
      rw [wsTitleAux, if_neg hw', List.dropWhile_cons_of_neg hw']
      unfold dotPlusDollar
      rw [if_pos ⟨List.cons_ne_nil c rest, hnl⟩]

theorem wsTitleAux_head :
    ∀ (cs : List Char), noLast isWs cs = true →
      ∀ t, wsTitleAux cs = some t → noHead isWs t = true
  | [], _, t, h => by simp [wsTitleAux, dotPlusDollar] at h
  | c :: rest, hlast, t, h => by
    by_cases hw : isWs c = true
    · have hrest : rest ≠ [] := by
        intro h0; subst h0
        rw [noLast_eq_getLast? isWs [c] c (by simp)] at hlast
        rw [hw] at hlast; cases hlast
      have hlast' : noLast isWs rest = true := by
        rw [← noLast_cons isWs c rest hrest]; exact hlast
      rw [wsTitleAux, if_pos hw] at h
      cases hws : wsTitleAux rest with
      | some t' =>
        rw [hws] at h
        cases h
        exact wsTitleAux_head rest hlast' t hws
      | none =>
        rw [hws] at h
        rcases dotPlusDollar_some _ _ h with ⟨rfl, _, hnl⟩ | ⟨hnl, rfl⟩
        · have hnl' : rest.contains '\n' = false := by
            rw [List.contains_cons] at hnl
            exact (Bool.or_eq_false_iff.1 hnl).2
          rw [wsTitleAux_of_clean rest hrest hnl' hlast'] at hws
          cases hws
        · rw [noLast_eq_getLast? isWs _ _ hnl] at hlast
          cases hlast
    · have hw' : ¬ isWs c = true := hw
      rw [wsTitleAux, if_neg hw'] at h
      rcases dotPlusDollar_some _ _ h with ⟨rfl, _, _⟩ | ⟨hnl, rfl⟩
      · rw [noHead_cons]
        simpa using hw
      · rw [noLast_eq_getLast? isWs _ _ hnl] at hlast
        cases hlast

theorem extraStrip1_none (u : List Char) (hh : noHead isWs u = true)
    (hs : noHead isSep u = true) : extraStrip1 u = none := by
  unfold extraStrip1
  rw [dropWhile_eq_self_of_noHead isWs u hh]
  cases u with
  | nil => rfl
  | cons c rest =>
    rw [noHead_cons] at hs
    have : ¬ isSep c = true := by simpa using hs
    rw [sepHead, if_neg this]

theorem extraStrip1_head (u t : List Char) (hh : noHead isWs u = true)
    (hl : noLast isWs u = true) (h : extraStrip1 u = some t) : noHead isWs t = true := by
  unfold extraStrip1 at h
  rw [dropWhile_eq_self_of_noHead isWs u hh] at h
  cases u with
  | nil => cases h
  | cons c rest =>
    rw [sepHead] at h
    by_cases hsc : isSep c = true
    · rw [if_pos hsc] at h
      by_cases hr : rest = []
      · subst hr; simp [wsTitleAux, dotPlusDollar] at h
      · exact wsTitleAux_head rest (by rw [← noLast_cons isWs c rest hr]; exact hl) t h
    · rw [if_neg hsc] at h; cases h

theorem sepTail_eq_false (cs : List Char) (hw : noLast isWs cs = true)
    (hs : noLast isSep cs = true) : sepTail cs = false := by
  induction cs with
  | nil => rfl
  | cons c rest ih =>
    rw [sepTail]
    by_cases hwc : isWs c = true
    · rw [if_pos hwc]
      by_cases hr : rest = []
      · subst hr; rfl
      · exact ih (by rw [← noLast_cons isWs c rest hr]; exact hw)
          (by rw [← noLast_cons isSep c rest hr]; exact hs)
    · rw [if_neg hwc]
      by_cases hr : rest = []
      · subst hr
        rw [noLast_eq_getLast? isSep [c] c (by simp)] at hs
        have : isSep c = false := by simpa using hs
        simp [this]
      · by_cases ha : rest.all isWs = true
        · cases hgl : rest.getLast? with
          | none => exact absurd (List.getLast?_eq_none_iff.1 hgl) hr
          | some d =>
            have hd : isWs d = true := by
              have := List.all_eq_true.1 ha d (List.mem_of_mem_getLast? hgl)
              simpa using this
            have hw' : noLast isWs rest = true := by
              rw [← noLast_cons isWs c rest hr]; exact hw
            rw [noLast_eq_getLast? isWs rest d hgl, hd] at hw'
            cases hw'
        · have ha' : rest.all isWs = false := by simpa using ha
          simp [ha']

theorem titleScan_none (cs : List Char) (hw : noLast isWs cs = true)
    (hs : noLast isSep cs = true) : titleScan cs = none := by
  induction cs with
  | nil => rfl
  | cons c rest ih =>
    rw [titleScan]
    by_cases hn : c = '\n'
    · rw [if_pos hn]
    · rw [if_neg hn]
      by_cases hr : rest = []
      · subst hr
        simp [titleScan, sepTail]
      · have h1 := ih (by rw [← noLast_cons isWs c rest hr]; exact hw)
          (by rw [← noLast_cons isSep c rest hr]; exact hs)
        have h2 := sepTail_eq_false rest (by rw [← noLast_cons isWs c rest hr]; exact hw)
          (by rw [← noLast_cons isSep c rest hr]; exact hs)
        rw [h1, h2]
        rfl

theorem extraStrip2_head? (u t : List Char) (h : extraStrip2 u = some t) :
    t.head? = u.head? := by
  unfold extraStrip2 at h
  cases u with
  | nil => cases h
  | cons c rest =>
    rw [titleScan] at h
    by_cases hn : c = '\n'
    · rw [if_pos hn] at h; cases h
    · rw [if_neg hn] at h
      cases hts : titleScan rest with
      | some t' => rw [hts] at h; cases h; rfl
      | none =>
        rw [hts] at h
        by_cases hst : sepTail rest = true
        · rw [if_pos hst] at h; cases h; rfl
        · rw [if_neg hst] at h; cases h

theorem noHead_congr (p : Char → Bool) (a b : List Char) (h : a.head? = b.head?) :
    noHead p a = noHead p b := by
  unfold noHead
  rw [h]

/-- The two extra-strip iterations of `_replace_junk`, unfolded. -/
theorem extra_foldl (u : List Char) :
    EXTRA_STRIP_PATTERNS.foldl applyExtra u =
      applyExtra (applyExtra u extraStrip1) extraStrip2 := rfl

/-- Core lemma for C3/C7: when no junk pattern matches the raw title and
the trimmed title has no separator at either boundary, `_replace_junk`
returns exactly the trimmed title. -/
theorem replace_junk_no_match (title : List Char) (patterns : List JunkPattern)
    (hp : ∀ p ∈ patterns, p title = none)
    (h1 : noHead isSep (pyStrip title) = true)
    (h2 : noLast isSep (pyStrip title) = true) :
    replace_junk title patterns = pyStrip title := by
  unfold replace_junk
  rw [foldl_applyJunk_no_match title patterns hp, extra_foldl]
  rw [show applyExtra (pyStrip title) extraStrip1 = pyStrip title from by
    unfold applyExtra
    rw [extraStrip1_none _ (noHead_isWs_pyStrip title) h1]]
  show applyExtra (pyStrip title) extraStrip2 = pyStrip title
  unfold applyExtra
  rw [show extraStrip2 (pyStrip title) = none from
    titleScan_none _ (noLast_isWs_pyStrip title) h2]

/-- C9: the result of `_replace_junk` never begins with whitespace (the
strip runs before the extra patterns and the extra patterns cannot
reintroduce a leading whitespace character on a stripped input), but it
can END with whitespace: `"Song -"` with zero patterns returns
`"Song "`. -/
theorem claim_C9 :
    (∀ (title : List Char) (patterns : List JunkPattern),
      noHead isWs (replace_junk title patterns) = true) ∧
    replace_junk "Song -".data [] = "Song ".data := by
  constructor
  · intro title patterns
    unfold replace_junk
    rw [extra_foldl]
    have hh := noHead_isWs_pyStrip (patterns.foldl applyJunk title)
    have hl := noLast_isWs_pyStrip (patterns.foldl applyJunk title)
    set u := pyStrip (patterns.foldl applyJunk title) with hu
    have hv : noHead isWs (applyExtra u extraStrip1) = true := by
      unfold applyExtra
      cases h1 : extraStrip1 u with
      | none => exact hh
      | some t => exact extraStrip1_head u t hh hl h1
    set v := applyExtra u extraStrip1 with hvdef
    unfold applyExtra
    cases h2 : extraStrip2 v with
    | none => exact hv
    | some t =>
      rw [noHead_congr isWs t v (extraStrip2_head? v t h2)]
      exact hv
  · decide

/-- C3: cleaning a title matched by no junk pattern, whose trimmed form
has no separator at either boundary, returns exactly the trimmed
original; cleaning the result again is a no-op (idempotence). -/
theorem claim_C3 (title : List Char) (patterns : List JunkPattern)
    (hp : ∀ p ∈ patterns, p title = none)
    (hp' : ∀ p ∈ patterns, p (pyStrip title) = none)
    (h1 : noHead isSep (pyStrip title) = true)
    (h2 : noLast isSep (pyStrip title) = true) :
    replace_junk title patterns = pyStrip title ∧
    replace_junk (replace_junk title patterns) patterns = replace_junk title patterns := by
  have e1 := replace_junk_no_match title patterns hp h1 h2
  refine ⟨e1, ?_⟩
  rw [e1]
  have e2 := replace_junk_no_match (pyStrip title) patterns hp'
    (by rw [pyStrip_idem]; exact h1) (by rw [pyStrip_idem]; exact h2)
  rw [e2, pyStrip_idem]

/-- C3 witness at a concrete clean title. -/
theorem claim_C3_witness :
    replace_junk "Hello World".data YOUTUBE_TITLE_JUNK = pyStrip "Hello World".data ∧
    replace_junk (replace_junk "Hello World".data YOUTUBE_TITLE_JUNK) YOUTUBE_TITLE_JUNK =
      replace_junk "Hello World".data YOUTUBE_TITLE_JUNK :=
  claim_C3 "Hello World".data YOUTUBE_TITLE_JUNK
    (by intro p hp; fin_cases hp <;> decide)
    (by intro p hp; fin_cases hp <;> decide)
    (by decide) (by decide)

/-- C7, amended: with zero patterns `_replace_junk` returns the trimmed
title PROVIDED the trimmed title has no separator character at either
boundary; otherwise the extra-strip stage still rewrites it (see the
counterexample). -/
theorem claim_C7 (title : List Char)
    (h1 : noHead isSep (pyStrip title) = true)
    (h2 : noLast isSep (pyStrip title) = true) :
    replace_junk title [] = pyStrip title :=
  replace_junk_no_match title [] (by simp) h1 h2

/-- C7 witness. -/
theorem claim_C7_witness : replace_junk "  Hello  ".data [] = pyStrip "  Hello  ".data :=
  claim_C7 "  Hello  ".data (by decide) (by decide)

/-! Lemmas for separator-only titles (C2). -/

theorem bracketSearch_none (alts : List (List CM)) :
    ∀ (cs : List Char), (∀ c ∈ cs, isOpen c = false) → bracketSearch alts cs = none
  | [], _ => rfl
  | c :: cs, h => by
    have hc : ¬ isOpen c = true := by
      simp [h c (List.mem_cons_self c cs)]
    rw [bracketSearch, if_neg hc]
    exact bracketSearch_none alts cs (fun d hd => h d (List.mem_cons_of_mem c hd))

theorem youtube_junk_none (cs : List Char) (h : ∀ c ∈ cs, isOpen c = false) :
    ∀ p ∈ YOUTUBE_TITLE_JUNK, p cs = none := by
  intro p hp
  unfold YOUTUBE_TITLE_JUNK at hp
  simp only [List.mem_cons, List.not_mem_nil, or_false] at hp
  rcases hp with rfl|rfl|rfl|rfl|rfl|rfl|rfl|rfl|rfl|rfl|rfl|rfl|rfl
  all_goals exact bracketSearch_none _ cs h

theorem dropWhile_append_of_all (p : Char → Bool) :
    ∀ (a l : List Char), a.all p = true → (a ++ l).dropWhile p = l.dropWhile p
  | [], _, _ => rfl
  | x :: a', l, h => by
    have hx : p x = true := by
      have := List.all_eq_true.1 h x (List.mem_cons_self x a')
      simpa using this
    have ha : a'.all p = true :=
      List.all_eq_true.2 (fun d hd => List.all_eq_true.1 h d (List.mem_cons_of_mem x hd))
    show ((x :: (a' ++ l)).dropWhile p) = l.dropWhile p
    rw [List.dropWhile_cons_of_pos hx]
    exact dropWhile_append_of_all p a' l ha

theorem pyStrip_ws_sep_ws (w1 w2 : List Char) (c : Char)
    (h1 : w1.all isWs = true) (h2 : w2.all isWs = true) (hc : isWs c = false) :
    pyStrip (w1 ++ c :: w2) = [c] := by
  have hc' : ¬ isWs c = true := by simp [hc]
  unfold pyStrip
  rw [dropWhile_append_of_all isWs w1 (c :: w2) h1,
    List.dropWhile_cons_of_neg hc', List.reverse_cons,
    dropWhile_append_of_all isWs w2.reverse [c] (by simpa using h2),
    List.dropWhile_cons_of_neg hc']
  rfl

/-- C2, amended: a title consisting solely of one separator character
with surrounding whitespace cleans to the single separator character
(not to the empty string), and cleaning is total (no failure). -/
theorem claim_C2 (w1 w2 : List Char) (c : Char)
    (h1 : w1.all isWs = true) (h2 : w2.all isWs = true) (hc : isSep c = true) :
    replace_junk (w1 ++ c :: w2) YOUTUBE_TITLE_JUNK = [c] := by
  have hcw : isWs c = false := isWs_eq_false_of_isSep c hc
  have hopen : ∀ d ∈ w1 ++ c :: w2, isOpen d = false := by
    intro d hd
    rcases List.mem_append.1 hd with hd | hd
    · exact isOpen_eq_false_of_isWs d (by simpa using List.all_eq_true.1 h1 d hd)
    · rcases List.mem_cons.1 hd with rfl | hd
      · exact isOpen_eq_false_of_isSep d hc
      · exact isOpen_eq_false_of_isWs d (by simpa using List.all_eq_true.1 h2 d hd)
  unfold replace_junk
  rw [foldl_applyJunk_no_match _ _ (youtube_junk_none _ hopen), extra_foldl,
    pyStrip_ws_sep_ws w1 w2 c h1 h2 hcw]
  have he1 : extraStrip1 [c] = none := by
    unfold extraStrip1
    rw [List.dropWhile_cons_of_neg (by simp [hcw]), sepHead, if_pos hc]
    rfl
  have he2 : extraStrip2 [c] = none := by
    unfold extraStrip2
    rw [titleScan, if_neg (ne_newline_of_isSep c hc)]
    rfl
  rw [show applyExtra [c] extraStrip1 = [c] from by unfold applyExtra; rw [he1]]
  show applyExtra [c] extraStrip2 = [c]
  unfold applyExtra
  rw [he2]

/-- C2 witness: the spec's own example `" - "`. -/
theorem claim_C2_witness : replace_junk ([' '] ++ '-' :: [' ']) YOUTUBE_TITLE_JUNK = ['-'] :=
  claim_C2 [' '] [' '] '-' (by decide) (by decide) (by decide)

/-! C4: the per-item frame conditions of `clean_youtube_metadata`. -/

/-- The result of `clean_item`, written field by field: the earlier
conditional writes do not alter the path or the fields the later
conditions read. -/
theorem clean_item_eq {α : Type} (cfg : Config) (it : Item α) :
    clean_item cfg it =
      { path := it.path
        title := if it.title.isEmpty then get_clean_title cfg it.path else it.title
        album := if cfg.infer_album && it.album.isEmpty then get_album it.path else it.album
        artist := if cfg.infer_artist && it.artist.isEmpty then get_artist it.path else it.artist
        rest_fields := it.rest_fields } := by
  unfold clean_item
  by_cases ht : it.title.isEmpty = true <;>
    by_cases ha : (cfg.infer_album && it.album.isEmpty) = true <;>
      by_cases hr : (cfg.infer_artist && it.artist.isEmpty) = true <;>
        simp [ht, ha, hr]

/-- C4: processing an item never overwrites a non-empty field: the title
is written only when empty, the album only when `parent_is_album` holds
and the album is empty, the artist only when `parent_parent_is_artist`
holds and the artist is empty; the path and all remaining fields are
unchanged, and the task loop processes items independently. -/
theorem claim_C4 {α : Type} (cfg : Config) (it : Item α) :
    (clean_item cfg it).path = it.path ∧
    (clean_item cfg it).rest_fields = it.rest_fields ∧
    (it.title ≠ [] → (clean_item cfg it).title = it.title) ∧
    (it.title = [] → (clean_item cfg it).title = get_clean_title cfg it.path) ∧
    (it.album ≠ [] → (clean_item cfg it).album = it.album) ∧
    (cfg.infer_album = false → (clean_item cfg it).album = it.album) ∧
    (cfg.infer_album = true → it.album = [] → (clean_item cfg it).album = get_album it.path) ∧
    (it.artist ≠ [] → (clean_item cfg it).artist = it.artist) ∧
    (cfg.infer_artist = false → (clean_item cfg it).artist = it.artist) ∧
    (cfg.infer_artist = true → it.artist = [] →
      (clean_item cfg it).artist = get_artist it.path) ∧
    (∀ items : List (Item α), clean_youtube_metadata cfg items = items.map (clean_item cfg)) := by
  rw [clean_item_eq]
  refine ⟨rfl, rfl, ?_, ?_, ?_, ?_, ?_, ?_, ?_, ?_, fun items => rfl⟩
  · intro h
    exact if_neg (fun hh => h (by simpa using hh))
  · intro h
    exact if_pos (by simp [h])
  · intro h
    apply if_neg
    intro hh
    rw [Bool.and_eq_true] at hh
    exact h (by simpa using hh.2)
  · intro h
    apply if_neg
    simp [h]
  · intro h1 h2
    exact if_pos (by simp [h1, h2])
  · intro h
    apply if_neg
    intro hh
    rw [Bool.and_eq_true] at hh
    exact h (by simpa using hh.2)
  · intro h
    apply if_neg
    simp [h]
  · intro h1 h2
    exact if_pos (by simp [h1, h2])

/-- C4 witness: a fully populated item is returned unchanged in the
fields shown. -/
theorem claim_C4_witness :
    (clean_item ⟨true, true⟩
      (⟨"a/b/c.mp3".data, "T".data, "A".data, "R".data, 0⟩ : Item Nat)).path = "a/b/c.mp3".data ∧
    (clean_item ⟨true, true⟩
      (⟨"a/b/c.mp3".data, "T".data, "A".data, "R".data, 0⟩ : Item Nat)).title = "T".data ∧
    (clean_item ⟨true, true⟩
      (⟨"a/b/c.mp3".data, "T".data, "A".data, "R".data, 0⟩ : Item Nat)).album = "A".data :=
  ⟨(claim_C4 ⟨true, true⟩ _).1,
   (claim_C4 ⟨true, true⟩ _).2.2.1 (by decide),
   (claim_C4 ⟨true, true⟩ _).2.2.2.2.1 (by decide)⟩

/-! C10: empty artist name. -/

theorem removeAll_nil_pat : ∀ (s : List Char), removeAll [] s = s
  | [] => rfl
  | c :: cs => congrArg (c :: ·) (removeAll_nil_pat cs)

/-- C10, amended: with an empty artist name the pattern construction
still succeeds and its pattern matches (zero-width) at position 0 — but
the capture is empty (and the title unchanged) only when the title does
not begin with a parenthesis; a leading `(` or `)` is captured by the
optional-parenthesis parts and removed everywhere (see the
counterexample). Shallow paths (empty inferred artist) stay total. -/
theorem claim_C10 (title : List Char)
    (h1 : title.head? ≠ some '(') (h2 : title.head? ≠ some ')') :
    remove_artist_name_pattern [] title = some [] ∧
    applyJunk title (remove_artist_name_pattern []) = title ∧
    artist_name_from_path "x.mp3".data = [] := by
  have hsearch : remove_artist_name_pattern [] title = some [] := by
    cases title with
    | nil => rfl
    | cons c cs =>
      have hc1 : c ≠ '(' := fun h => h1 (by rw [h]; rfl)
      have hc2 : c ≠ ')' := fun h => h2 (by rw [h]; rfl)
      have hm : artistMatchAt [] (c :: cs) = some [] := by
        show (if c = '(' then
                match matchSeq (([] : List Char).map CM.lit) cs with
                | some (m, r) => some ('(' :: (m ++ closeParenOpt r))
                | none => artistBare [] (c :: cs)
              else artistBare [] (c :: cs)) = some []
        rw [if_neg hc1]
        show some (([] : List Char) ++ (if c = ')' then [')'] else [])) = some []
        rw [if_neg hc2]
        rfl
      show (match artistMatchAt [] (c :: cs) with
            | some m => some m
            | none => artistSearch [] cs) = some []
      rw [hm]
  refine ⟨hsearch, ?_, by decide⟩
  unfold applyJunk
  rw [show remove_artist_name_pattern [] title = some [] from hsearch]
  exact removeAll_nil_pat title

/-- C10 witness. -/
theorem claim_C10_witness :
    remove_artist_name_pattern [] "Hello".data = some [] ∧
    applyJunk "Hello".data (remove_artist_name_pattern []) = "Hello".data ∧
    artist_name_from_path "x.mp3".data = [] :=
  claim_C10 "Hello".data (by decide) (by decide)

/-! C8: characterisation of the dynamic pattern builders. -/

theorem matchSeq_lit_sound :
    ∀ (pat cs m r : List Char), matchSeq (pat.map CM.lit) cs = some (m, r) →
      cs = m ++ r ∧ m.map Char.toLower = pat.map Char.toLower := by
  intro pat
  induction pat with
  | nil =>
    intro cs m r h
    have h' : (([] : List Char), cs) = (m, r) := Option.some.inj h
    have h1 : ([] : List Char) = m := congrArg Prod.fst h'
    have h2 : cs = r := congrArg Prod.snd h'
    subst h1; subst h2
    exact ⟨rfl, rfl⟩
  | cons a as ih =>
    intro cs m r h
    cases cs with
    | nil => cases h
    | cons c cs' =>
      have h' : (if cmMatch (CM.lit a) c = true then
          (matchSeq (as.map CM.lit) cs').map (fun p => (c :: p.1, p.2)) else none) = some (m, r) := h
      by_cases hm : cmMatch (CM.lit a) c = true
      · rw [if_pos hm] at h'
        cases hrec : matchSeq (as.map CM.lit) cs' with
        | none => rw [hrec] at h'; cases h'
        | some p =>
          obtain ⟨m', r'⟩ := p
          rw [hrec] at h'
          simp only [Option.map_some'] at h'
          have hp := Option.some.inj h'
          have h1 : c :: m' = m := congrArg Prod.fst hp
          have h2 : r' = r := congrArg Prod.snd hp
          obtain ⟨e1, e2⟩ := ih cs' m' r' hrec
          subst h1; subst h2
          have hlc : c.toLower = a.toLower := by
            have := hm
            unfold cmMatch lowerEq at this
            simpa [eq_comm] using this
          constructor
          · rw [e1]; rfl
          · simp [hlc, e2]
      · rw [if_neg hm] at h'; cases h'

theorem matchSeq_lit_complete :
    ∀ (pat m r : List Char), m.map Char.toLower = pat.map Char.toLower →
      matchSeq (pat.map CM.lit) (m ++ r) = some (m, r) := by
  intro pat
  induction pat with
  | nil =>
    intro m r h
    have hm : m = [] := by
      cases m with
      | nil => rfl
      | cons x xs => cases h
    subst hm; rfl
  | cons a as ih =>
    intro m r h
    cases m with
    | nil => cases h
    | cons c m' =>
      have h1 : c.toLower = a.toLower := by
        have := congrArg List.head? h
        simpa using this
      have h2 : m'.map Char.toLower = as.map Char.toLower := by
        have := congrArg List.tail h
        simpa using this
      show (if cmMatch (CM.lit a) c = true then
          (matchSeq (as.map CM.lit) (m' ++ r)).map (fun p => (c :: p.1, p.2)) else none) =
        some (c :: m', r)
      rw [if_pos (by unfold cmMatch lowerEq; simp [h1]), ih m' r h2]
      rfl

theorem litSearch_lit_sound :
    ∀ (pat s m : List Char), litSearch (pat.map CM.lit) s = some m →
      (∃ a b, s = a ++ (m ++ b)) ∧ m.map Char.toLower = pat.map Char.toLower := by
  intro pat s
  induction s with
  | nil =>
    intro m h
    have h' : (matchSeq (pat.map CM.lit) []).map Prod.fst = some m := h
    cases hms : matchSeq (pat.map CM.lit) [] with
    | none => rw [hms] at h'; cases h'
    | some p =>
      obtain ⟨m', r'⟩ := p
      rw [hms] at h'
      simp only [Option.map_some'] at h'
      cases h'
      obtain ⟨e1, e2⟩ := matchSeq_lit_sound pat [] _ r' hms
      exact ⟨⟨[], r', by simpa using e1⟩, e2⟩
  | cons c cs ih =>
    intro m h
    have h' : (match searchAt (pat.map CM.lit) (c :: cs) with
        | some m' => some m'
        | none => litSearch (pat.map CM.lit) cs) = some m := h
    cases hsa : searchAt (pat.map CM.lit) (c :: cs) with
    | some m' =>
      rw [hsa] at h'
      cases h'
      have hsa' : (matchSeq (pat.map CM.lit) (c :: cs)).map Prod.fst = some m := hsa
      cases hms : matchSeq (pat.map CM.lit) (c :: cs) with
      | none => rw [hms] at hsa'; cases hsa'
      | some p =>
        obtain ⟨m2, r2⟩ := p
        rw [hms] at hsa'
        simp only [Option.map_some'] at hsa'
        cases hsa'
        obtain ⟨e1, e2⟩ := matchSeq_lit_sound pat _ _ r2 hms
        exact ⟨⟨[], r2, by simpa using e1⟩, e2⟩
    | none =>
      rw [hsa] at h'
      obtain ⟨⟨a, b, e⟩, hci⟩ := ih m h'
      exact ⟨⟨c :: a, b, by rw [e]; rfl⟩, hci⟩

theorem litSearch_lit_complete :
    ∀ (pat a m b : List Char), m.map Char.toLower = pat.map Char.toLower →
      litSearch (pat.map CM.lit) (a ++ (m ++ b)) ≠ none := by
  intro pat a
  induction a with
  | nil =>
    intro m b h
    have hms := matchSeq_lit_complete pat m b h
    cases hmb : (m ++ b : List Char) with
    | nil =>
      show (matchSeq (pat.map CM.lit) []).map Prod.fst ≠ none
      rw [← hmb, hms]
      simp
    | cons x xs =>
      show (match searchAt (pat.map CM.lit) (x :: xs) with
          | some m' => some m'
          | none => litSearch (pat.map CM.lit) xs) ≠ none
      have hsa : searchAt (pat.map CM.lit) (x :: xs) = some m := by
        unfold searchAt
        rw [← hmb, hms]
        rfl
      rw [hsa]
      simp
  | cons c a' ih =>
    intro m b h
    show (match searchAt (pat.map CM.lit) (c :: (a' ++ (m ++ b))) with
        | some m' => some m'
        | none => litSearch (pat.map CM.lit) (a' ++ (m ++ b))) ≠ none
    cases hsa : searchAt (pat.map CM.lit) (c :: (a' ++ (m ++ b))) with
    | some m' => simp
    | none => exact ih m b h

theorem closeParenOpt_spec (cs : List Char) :
    closeParenOpt cs = [] ∨ (closeParenOpt cs = [')'] ∧ ∃ rest, cs = ')' :: rest) := by
  cases cs with
  | nil => exact Or.inl rfl
  | cons c rest =>
    by_cases h : c = ')'
    · subst h
      exact Or.inr ⟨by simp [closeParenOpt], rest, rfl⟩
    · exact Or.inl (by simp [closeParenOpt, h])

theorem artistBare_sound (an cs j : List Char) (h : artistBare an cs = some j) :
    (∃ b, cs = j ++ b) ∧
      (j.map Char.toLower = an.map Char.toLower ∨
       j.map Char.toLower = (an ++ [')']).map Char.toLower) := by
  unfold artistBare at h
  cases hms : matchSeq (an.map CM.lit) cs with
  | none => rw [hms] at h; cases h
  | some p =>
    obtain ⟨m, r⟩ := p
    rw [hms] at h
    cases h
    obtain ⟨e1, e2⟩ := matchSeq_lit_sound an cs m r hms
    rcases closeParenOpt_spec r with hc | ⟨hc, rest, hrest⟩
    · rw [hc]
      exact ⟨⟨r, by simp [e1]⟩, Or.inl (by simp [e2])⟩
    · rw [hc]
      refine ⟨⟨rest, by rw [e1, hrest]; simp⟩, Or.inr (by simp [e2])⟩

theorem artistMatchAt_sound (an cs j : List Char) (h : artistMatchAt an cs = some j) :
    (∃ b, cs = j ++ b) ∧
      (j.map Char.toLower = an.map Char.toLower ∨
       j.map Char.toLower = ('(' :: an).map Char.toLower ∨
       j.map Char.toLower = (an ++ [')']).map Char.toLower ∨
       j.map Char.toLower = ('(' :: (an ++ [')'])).map Char.toLower) := by
  cases cs with
  | nil =>
    obtain ⟨⟨b, e⟩, hci⟩ := artistBare_sound an [] j h
    refine ⟨⟨b, e⟩, ?_⟩
    rcases hci with h' | h'
    · exact Or.inl h'
    · exact Or.inr (Or.inr (Or.inl h'))
  | cons c rest =>
    have h' : (if c = '(' then
          match matchSeq (an.map CM.lit) rest with
          | some (m, r) => some ('(' :: (m ++ closeParenOpt r))
          | none => artistBare an (c :: rest)
        else artistBare an (c :: rest)) = some j := h
    by_cases hc : c = '('
    · rw [if_pos hc] at h'
      subst hc
      cases hms : matchSeq (an.map CM.lit) rest with
      | some p =>
        obtain ⟨m, r⟩ := p
        rw [hms] at h'
        cases h'
        obtain ⟨e1, e2⟩ := matchSeq_lit_sound an rest m r hms
        rcases closeParenOpt_spec r with hcp | ⟨hcp, r2, hr2⟩
        · rw [hcp]
          refine ⟨⟨r, by rw [e1]; simp⟩, Or.inr (Or.inl (by simp [e2]))⟩
        · rw [hcp]
          refine ⟨⟨r2, by rw [e1, hr2]; simp⟩, Or.inr (Or.inr (Or.inr (by simp [e2])))⟩
      | none =>
        rw [hms] at h'
        obtain ⟨⟨b, e⟩, hci⟩ := artistBare_sound an _ j h'
        refine ⟨⟨b, e⟩, ?_⟩
        rcases hci with hx | hx
        · exact Or.inl hx
        · exact Or.inr (Or.inr (Or.inl hx))
    · rw [if_neg hc] at h'
      obtain ⟨⟨b, e⟩, hci⟩ := artistBare_sound an _ j h'
      refine ⟨⟨b, e⟩, ?_⟩
      rcases hci with hx | hx
      · exact Or.inl hx
      · exact Or.inr (Or.inr (Or.inl hx))

theorem artistSearch_sound :
    ∀ (an s j : List Char), artistSearch an s = some j →
      (∃ a b, s = a ++ (j ++ b)) ∧
        (j.map Char.toLower = an.map Char.toLower ∨
         j.map Char.toLower = ('(' :: an).map Char.toLower ∨
         j.map Char.toLower = (an ++ [')']).map Char.toLower ∨
         j.map Char.toLower = ('(' :: (an ++ [')'])).map Char.toLower) := by
  intro an s
  induction s with
  | nil =>
    intro j h
    obtain ⟨⟨b, e⟩, hci⟩ := artistMatchAt_sound an [] j h
    exact ⟨⟨[], b, by simpa using e⟩, hci⟩
  | cons c cs ih =>
    intro j h
    have h' : (match artistMatchAt an (c :: cs) with
        | some m => some m
        | none => artistSearch an cs) = some j := h
    cases ham : artistMatchAt an (c :: cs) with
    | some m =>
      rw [ham] at h'
      cases h'
      obtain ⟨⟨b, e⟩, hci⟩ := artistMatchAt_sound an (c :: cs) _ ham
      exact ⟨⟨[], b, by simpa using e⟩, hci⟩
    | none =>
      rw [ham] at h'
      obtain ⟨⟨a, b, e⟩, hci⟩ := ih j h'
      exact ⟨⟨c :: a, b, by rw [e]; rfl⟩, hci⟩

theorem artistMatchAt_of_matchSeq (an cs : List Char) (p : List Char × List Char)
    (h : matchSeq (an.map CM.lit) cs = some p) : artistMatchAt an cs ≠ none := by
  obtain ⟨m, r⟩ := p
  have hbare : artistBare an cs ≠ none := by
    unfold artistBare
    rw [h]
    simp
  cases cs with
  | nil => exact hbare
  | cons c rest =>
    show (if c = '(' then
          match matchSeq (an.map CM.lit) rest with
          | some (m, r) => some ('(' :: (m ++ closeParenOpt r))
          | none => artistBare an (c :: rest)
        else artistBare an (c :: rest)) ≠ none
    by_cases hc : c = '('
    · rw [if_pos hc]
      cases hms : matchSeq (an.map CM.lit) rest with
      | some p2 =>
        obtain ⟨m2, r2⟩ := p2
        simp
      | none => exact hbare
    · rw [if_neg hc]
      exact hbare

theorem artistSearch_complete :
    ∀ (an a m b : List Char), m.map Char.toLower = an.map Char.toLower →
      artistSearch an (a ++ (m ++ b)) ≠ none := by
  intro an a
  induction a with
  | nil =>
    intro m b h
    have hma := artistMatchAt_of_matchSeq an (m ++ b) (m, b) (matchSeq_lit_complete an m b h)
    cases hmb : (m ++ b : List Char) with
    | nil =>
      show artistMatchAt an [] ≠ none
      rw [← hmb]
      simpa using hma
    | cons c cs =>
      rw [hmb] at hma
      show (match artistMatchAt an (c :: cs) with
          | some m' => some m'
          | none => artistSearch an cs) ≠ none
      cases hx : artistMatchAt an (c :: cs) with
      | some mm => simp
      | none => exact absurd hx hma
  | cons c a' ih =>
    intro m b h
    show (match artistMatchAt an (c :: (a' ++ (m ++ b))) with
        | some m' => some m'
        | none => artistSearch an (a' ++ (m ++ b))) ≠ none
    cases hx : artistMatchAt an (c :: (a' ++ (m ++ b))) with
    | some mm => simp
    | none => exact ih m b h

/-- C8: `remove_album_name_pattern` matches exactly the literal album
name wrapped in both parentheses, case-insensitively, capturing the
parenthesized text (soundness and completeness of the search);
`remove_artist_name_pattern` matches the literal artist name with each
parenthesis independently optional, case-insensitively, capturing the
full matched text including any matched parentheses, and it matches
whenever the bare name occurs. -/
theorem claim_C8 (nm s : List Char) :
    (∀ junk, remove_album_name_pattern nm s = some junk →
      (∃ a b, s = a ++ (junk ++ b)) ∧
        junk.map Char.toLower = ('(' :: (nm ++ [')'])).map Char.toLower) ∧
    (∀ a m b, s = a ++ (m ++ b) →
      m.map Char.toLower = ('(' :: (nm ++ [')'])).map Char.toLower →
      remove_album_name_pattern nm s ≠ none) ∧
    (∀ junk, remove_artist_name_pattern nm s = some junk →
      (∃ a b, s = a ++ (junk ++ b)) ∧
        (junk.map Char.toLower = nm.map Char.toLower ∨
         junk.map Char.toLower = ('(' :: nm).map Char.toLower ∨
         junk.map Char.toLower = (nm ++ [')']).map Char.toLower ∨
         junk.map Char.toLower = ('(' :: (nm ++ [')'])).map Char.toLower)) ∧
    (∀ a m b, s = a ++ (m ++ b) → m.map Char.toLower = nm.map Char.toLower →
      remove_artist_name_pattern nm s ≠ none) := by
  refine ⟨?_, ?_, ?_, ?_⟩
  · intro junk h
    exact litSearch_lit_sound ('(' :: (nm ++ [')'])) s junk h
  · intro a m b hs hci
    subst hs
    exact litSearch_lit_complete ('(' :: (nm ++ [')'])) a m b hci
  · intro junk h
    exact artistSearch_sound nm s junk h
  · intro a m b hs hci
    subst hs
    exact artistSearch_complete nm a m b hci

/-- C8 witness: the album pattern finds `"(ALBUM)"` for name `"Album"`
case-insensitively, and the artist pattern matches a bare occurrence. -/
theorem claim_C8_witness :
    ((∃ a b, "x (ALBUM) y".data = a ++ ("(ALBUM)".data ++ b)) ∧
      "(ALBUM)".data.map Char.toLower =
        ('(' :: ("Album".data ++ [')'])).map Char.toLower) ∧
    remove_artist_name_pattern "Artist".data "say Artist now".data ≠ none :=
  ⟨(claim_C8 "Album".data "x (ALBUM) y".data).1 "(ALBUM)".data (by decide),
   (claim_C8 "Artist".data "say Artist now".data).2.2.2 "say ".data "Artist".data " now".data
     (by decide) (by decide)⟩

end YoutubeTitle
